import Mathlib

/-
  Verification development for the Gekko/Broadway assembler core
  (lexer, parser plugin, IR generator, operand encoder).

  The C++ sources are shallowly embedded: machine integers (u32/u64) are
  modelled as Nat with explicit reduction modulo 2 ^ 32 (or 2 ^ 64) at the
  points where the C++ types wrap; std::map tables are association lists;
  the heap-allocated fixup closures of the IR generator are modelled as a
  first-order expression type whose evaluator mirrors the closure bodies.
-/

/-! ## Unsigned 32-bit arithmetic helpers -/

/-- u32 subtraction: a - b computed on Nat, wrapping modulo 2 ^ 32.
    Intended for a, b < 2 ^ 32. -/
def sub32 (a b : Nat) : Nat := (a + 2 ^ 32 - b) % 2 ^ 32

/-- u32 bitwise complement (the C++ operator ~ on uint32_t). -/
def compl32 (x : Nat) : Nat := 2 ^ 32 - 1 - x % 2 ^ 32

/-! ## Operand descriptors (AssemblerTables.cpp)

  OperandDesc holds the in-instruction mask, the shift amount and the
  signedness of one operand field of a PowerPC machine instruction. -/

structure OperandDesc where
  mask : Nat
  shift : Nat
  is_signed : Bool
deriving DecidableEq, Repr

/-- The constexpr helper mask(left, right): an inclusive bit interval
    with MSB = 0 numbering, computed in u64 then truncated to u32. -/
def maskLR (left right : Nat) : Nat :=
  (((1 <<< (32 - left)) - 1) &&& ((2 ^ 64 - 1) - ((1 <<< (31 - right)) - 1))) % 2 ^ 32

/-- OperandDesc::MaxVal. -/
def OperandDesc.MaxVal (d : OperandDesc) : Nat :=
  let mask_sh := d.mask >>> d.shift
  if d.is_signed then
    let mask_hibit := mask_sh &&& (mask_sh ^^^ (mask_sh >>> 1))
    sub32 mask_hibit 1
  else
    mask_sh

/-- OperandDesc::MinVal. -/
def OperandDesc.MinVal (d : OperandDesc) : Nat :=
  if d.is_signed then compl32 d.MaxVal else 0

/-- OperandDesc::TruncBits. -/
def OperandDesc.TruncBits (d : OperandDesc) : Nat :=
  let mask_sh := d.mask >>> d.shift
  let mask_lobit := mask_sh &&& (mask_sh ^^^ ((mask_sh <<< 1) % 2 ^ 32))
  sub32 mask_lobit 1

/-- OperandDesc::Fits: whether a u32 value is representable in the field. -/
def OperandDesc.Fits (d : OperandDesc) (val : Nat) : Bool :=
  let mask_sh := d.mask >>> d.shift
  if d.is_signed then
    let mask_hibit := mask_sh &&& (mask_sh ^^^ (mask_sh >>> 1))
    let mask_lobit := mask_sh &&& (mask_sh ^^^ ((mask_sh <<< 1) % 2 ^ 32))
    let positive_max := sub32 mask_hibit 1
    let negative_max := compl32 positive_max
    let truncate_bits := sub32 mask_lobit 1
    (decide (val ≤ positive_max) || decide (negative_max ≤ val)) &&
      decide (val &&& truncate_bits = 0)
  else
    decide (mask_sh &&& val = val)

/-- OperandDesc::Fit: place a u32 value into the field. -/
def OperandDesc.Fit (d : OperandDesc) (val : Nat) : Nat :=
  ((val <<< d.shift) % 2 ^ 32) &&& d.mask

/-! The fixed operand-descriptor catalogue of AssemblerTables.cpp. -/

def opdescA : OperandDesc := ⟨maskLR 11 15, 16, false⟩
def opdescB : OperandDesc := ⟨maskLR 16 20, 11, false⟩
def opdescBD : OperandDesc := ⟨maskLR 16 29, 0, true⟩
def opdescBI : OperandDesc := ⟨maskLR 11 15, 16, false⟩
def opdescBO : OperandDesc := ⟨maskLR 6 10, 21, false⟩
def opdescC : OperandDesc := ⟨maskLR 21 25, 6, false⟩
def opdescCrba : OperandDesc := ⟨maskLR 11 15, 16, false⟩
def opdescCrbb : OperandDesc := ⟨maskLR 16 20, 11, false⟩
def opdescCrbd : OperandDesc := ⟨maskLR 6 10, 21, false⟩
def opdescCrfd : OperandDesc := ⟨maskLR 6 8, 23, false⟩
def opdescCrfs : OperandDesc := ⟨maskLR 11 13, 18, false⟩
def opdescCRM : OperandDesc := ⟨maskLR 12 19, 12, false⟩
def opdescD : OperandDesc := ⟨maskLR 6 10, 21, false⟩
def opdescFM : OperandDesc := ⟨maskLR 7 14, 17, false⟩
def opdescI1 : OperandDesc := ⟨maskLR 16 16, 15, false⟩
def opdescI2 : OperandDesc := ⟨maskLR 21 21, 10, false⟩
def opdescIMM : OperandDesc := ⟨maskLR 16 19, 12, false⟩
def opdescL : OperandDesc := ⟨maskLR 10 10, 21, false⟩
def opdescLI : OperandDesc := ⟨maskLR 6 29, 0, true⟩
def opdescMB : OperandDesc := ⟨maskLR 21 25, 6, false⟩
def opdescME : OperandDesc := ⟨maskLR 26 30, 1, false⟩
def opdescNB : OperandDesc := ⟨maskLR 16 20, 11, false⟩
def opdescOffd : OperandDesc := ⟨maskLR 16 31, 0, true⟩
def opdescOffdPs : OperandDesc := ⟨maskLR 19 31, 0, true⟩
def opdescS : OperandDesc := ⟨maskLR 6 10, 21, false⟩
def opdescSH : OperandDesc := ⟨maskLR 16 20, 11, false⟩
def opdescSIMM : OperandDesc := ⟨maskLR 16 31, 0, true⟩
def opdescSPR : OperandDesc := ⟨maskLR 11 20, 11, false⟩
def opdescSR : OperandDesc := ⟨maskLR 12 15, 16, false⟩
def opdescTO : OperandDesc := ⟨maskLR 6 10, 21, false⟩
def opdescTPR : OperandDesc := ⟨maskLR 11 20, 11, false⟩
def opdescUIMM : OperandDesc := ⟨maskLR 16 31, 0, false⟩
def opdescW1 : OperandDesc := ⟨maskLR 17 19, 12, false⟩
def opdescW2 : OperandDesc := ⟨maskLR 22 24, 7, false⟩

/-- The complete catalogue of operand descriptors used by the mnemonic
    tables, in source order. -/
def operandCatalogue : List OperandDesc :=
  [opdescA, opdescB, opdescBD, opdescBI, opdescBO, opdescC, opdescCrba,
   opdescCrbb, opdescCrbd, opdescCrfd, opdescCrfs, opdescCRM, opdescD,
   opdescFM, opdescI1, opdescI2, opdescIMM, opdescL, opdescLI, opdescMB,
   opdescME, opdescNB, opdescOffd, opdescOffdPs, opdescS, opdescSH,
   opdescSIMM, opdescSPR, opdescSR, opdescTO, opdescTPR, opdescUIMM,
   opdescW1, opdescW2]

/-- Modelled from the spec (operand-fit decidability): decoding of an
    encoded field. The masked field of the instruction word is shifted
    back down; when the descriptor is signed and the sign bit of the
    field (the top bit of the shifted mask) is set, the field is
    sign-extended to u32. The bits truncated by the mask stay zero. -/
def specFieldDecode (d : OperandDesc) (w : Nat) : Nat :=
  let mask_sh := d.mask >>> d.shift
  let hibit := mask_sh &&& (mask_sh ^^^ (mask_sh >>> 1))
  let field := (w &&& d.mask) >>> d.shift
  if d.is_signed = true ∧ hibit ≤ field then field + (2 ^ 32 - 2 * hibit) else field

/-! ## IR data model (GekkoIR.h) -/

structure GekkoInstruction where
  mnemonic_index : Nat
  op_index : Nat
  op_count : Nat
  raw_text : String
  line_number : Nat
  is_extended : Bool
deriving DecidableEq, Repr

inductive ChunkVariant where
  | instChunk (insts : List GekkoInstruction)
  | byteChunk (bytes : List Nat)
  | padChunk (len : Nat)
deriving DecidableEq, Repr

structure IRBlock where
  chunks : List ChunkVariant
  block_address : Nat
deriving DecidableEq, Repr

/-- The per-chunk size computed inside IRBlock::BlockEndAddress (a u32,
    so each size is reduced modulo 2 ^ 32 as the C++ assignment does). -/
def chunkSizeU32 : ChunkVariant → Nat
  | .instChunk insts => insts.length * 4 % 2 ^ 32
  | .byteChunk bytes => bytes.length % 2 ^ 32
  | .padChunk len => len % 2 ^ 32

/-- IRBlock::BlockEndAddress: std::accumulate over the chunks with a u32
    accumulator starting at the block address. -/
def IRBlock.BlockEndAddress (b : IRBlock) : Nat :=
  b.chunks.foldl (fun acc c => (acc + chunkSizeU32 c) % 2 ^ 32) b.block_address

/-- The untruncated size of a chunk in bytes, as the spec states it:
    4 per instruction, one per byte, the pad count for a pad chunk. -/
def chunkSize : ChunkVariant → Nat
  | .instChunk insts => 4 * insts.length
  | .byteChunk bytes => bytes.length
  | .padChunk len => len

/-! ## Block-start helpers of the IR generator (GekkoIRGen.cpp)

  The plugin keeps a pointer to the active block, which is always the
  last block of the output; StartBlock appends a fresh empty block. -/

/-- GekkoIRPlugin::StartBlock. -/
def startBlock (blocks : List IRBlock) (address : Nat) : List IRBlock :=
  blocks ++ [⟨[], address⟩]

/-- End address of the active (= last) block. -/
def currentEndAddress (blocks : List IRBlock) : Nat :=
  (blocks.getLastD ⟨[], 0⟩).BlockEndAddress

/-- GekkoIRPlugin::StartBlockAlign: start a new block at the aligned-up
    address if the current end address is not already aligned. -/
def startBlockAlign (blocks : List IRBlock) (bits : Nat) : List IRBlock :=
  if currentEndAddress blocks &&& (((1 <<< bits) - 1) % 2 ^ 32) ≠ 0 then
    startBlock blocks
      (((1 <<< bits) +
          (currentEndAddress blocks &&& compl32 (((1 <<< bits) - 1) % 2 ^ 32))) % 2 ^ 32)
  else
    blocks

/-! ## Parser callout vocabulary (GekkoParser.h) -/

inductive AsmOp where
  | kOr | kXor | kAnd | kLsh | kRsh | kAdd | kSub | kMul | kDiv | kNeg | kNot
deriving DecidableEq, Repr

inductive ParenType where
  | kNormal | kRelConv
deriving DecidableEq, Repr

/-- AssemblerError (AssemblerShared.h): message plus one source span. -/
structure AssemblerError where
  message : String
  error_line : String
  line : Nat
  col : Nat
  len : Nat
deriving DecidableEq, Repr

/-! ## Fixups (GekkoIRGen.cpp)

  The IR generator builds deferred u32 computations as heap-allocated
  closures chained on a stack. Each closure produced by the Add* helpers
  is one of finitely many shapes, so the closures are embedded as a
  first-order expression type evaluated by evalFixup. -/

inductive Fixup where
  | lit (v : Nat)
  | binOp (op : AsmOp) (lhs rhs : Fixup)
  | unOp (op : AsmOp) (sub : Fixup)
  | absConv (inst_address : Nat) (sub : Fixup)
  | symRes (sym : String) (absolute : Bool) (source_address : Nat)
      (err_on_fail : AssemblerError)
deriving DecidableEq, Repr

/-- The u32 binary operators installed by EvalOperatorRel / EvalOperatorAbs. -/
def evalBinOp : AsmOp → Nat → Nat → Nat
  | .kOr, a, b => a ||| b
  | .kXor, a, b => a ^^^ b
  | .kAnd, a, b => a &&& b
  | .kLsh, a, b => (a <<< b) % 2 ^ 32
  | .kRsh, a, b => a >>> b
  | .kAdd, a, b => (a + b) % 2 ^ 32
  | .kSub, a, b => sub32 a b
  | .kMul, a, b => a * b % 2 ^ 32
  | .kDiv, a, b => a / b
  | .kNeg, a, _ => a
  | .kNot, a, _ => a

/-- The u32 unary operators installed by EvalOperatorRel / EvalOperatorAbs. -/
def evalUnOp : AsmOp → Nat → Nat
  | .kNeg, a => sub32 0 a
  | .kNot, a => compl32 a
  | _, a => a

/-- Evaluation of one fixup closure against the symbol tables, threading
    the shared parse-state error cell. The body of a binOp closure calls
    both sub-closures (here left before right) and an unresolved symbol
    stores its saved error into the cell and yields 0, exactly as the
    lambda made by AddSymbolResolve does. -/
def evalFixup (labels constants : List (String × Nat)) :
    Fixup → Option AssemblerError → Nat × Option AssemblerError
  | .lit v, e => (v, e)
  | .binOp op lhs rhs, e =>
      let la := evalFixup labels constants lhs e
      let ra := evalFixup labels constants rhs la.2
      (evalBinOp op la.1 ra.1, ra.2)
  | .unOp op sub, e =>
      let sa := evalFixup labels constants sub e
      (evalUnOp op sa.1, sa.2)
  | .absConv ia sub, e =>
      let sa := evalFixup labels constants sub e
      (sub32 sa.1 ia, sa.2)
  | .symRes sym absolute src err, e =>
      match labels.lookup sym with
      | some v => (if absolute then v else sub32 v src, e)
      | none =>
        match constants.lookup sym with
        | some v => (v % 2 ^ 32, e)
        | none => (0, some err)

/-- GekkoIRPlugin::RunFixups: write each evaluated fixup into the operand
    pool in order, stopping right after the first evaluation that set the
    error cell; the remaining pool slots keep their placeholder 0. -/
def runFixups (labels constants : List (String × Nat)) :
    List Fixup → Option AssemblerError → List Nat × Option AssemblerError
  | [], e => ([], e)
  | f :: fs, e =>
      let r := evalFixup labels constants f e
      match r.2 with
      | some err => (r.1 :: fs.map (fun _ => 0), some err)
      | none =>
          let rest := runFixups labels constants fs none
          (r.1 :: rest.1, rest.2)

/-- Whether a fixup contains a symbol reference that is in neither table. -/
def hasUndefinedSym (labels constants : List (String × Nat)) : Fixup → Bool
  | .lit _ => false
  | .binOp _ lhs rhs =>
      hasUndefinedSym labels constants lhs || hasUndefinedSym labels constants rhs
  | .unOp _ sub => hasUndefinedSym labels constants sub
  | .absConv _ sub => hasUndefinedSym labels constants sub
  | .symRes sym _ _ _ => (labels.lookup sym).isNone && (constants.lookup sym).isNone

/-- The saved errors of all undefined symbol references of a fixup, in
    evaluation order. -/
def savedErrs (labels constants : List (String × Nat)) : Fixup → List AssemblerError
  | .lit _ => []
  | .binOp _ lhs rhs =>
      savedErrs labels constants lhs ++ savedErrs labels constants rhs
  | .unOp _ sub => savedErrs labels constants sub
  | .absConv _ sub => savedErrs labels constants sub
  | .symRes sym _ _ err =>
      if (labels.lookup sym).isNone && (constants.lookup sym).isNone then [err] else []

/-! ## Fixup-stack helpers of the IR generator (GekkoIRGen.cpp) -/

/-- The error saved by AddSymbolResolve for a possibly-undefined symbol
    (the real one carries the lexer position of the symbol token). -/
def unresolvedErr (name : String) : AssemblerError :=
  ⟨"Unresolved symbol " ++ name, "", 0, 0, name.length⟩

/-- GekkoIRPlugin::AddLiteral. -/
def addLiteral (lit : Nat) (stk : List Fixup) : List Fixup :=
  .lit lit :: stk

/-- GekkoIRPlugin::AddBinaryEvaluator: pop rhs then lhs, push composite. -/
def addBinaryEvaluator (op : AsmOp) (stk : List Fixup) : List Fixup :=
  match stk with
  | rhs :: lhs :: rest => .binOp op lhs rhs :: rest
  | _ => stk

/-- GekkoIRPlugin::AddUnaryEvaluator. -/
def addUnaryEvaluator (op : AsmOp) (stk : List Fixup) : List Fixup :=
  match stk with
  | top :: rest => .unOp op top :: rest
  | _ => stk

/-- GekkoIRPlugin::AddAbsoluteAddressConv (captures the current address). -/
def addAbsoluteAddressConv (inst_address : Nat) (stk : List Fixup) : List Fixup :=
  match stk with
  | top :: rest => .absConv inst_address top :: rest
  | _ => stk

/-- GekkoIRPlugin::AddSymbolResolve. -/
def addSymbolResolve (sym : String) (absolute : Bool) (source_address : Nat)
    (stk : List Fixup) : List Fixup :=
  .symRes sym absolute source_address (unresolvedErr sym) :: stk

/-- GekkoIRPlugin::OnHiaddr in double-pass (instruction operand) mode:
    resolve the symbol absolutely, then shift right by 16 and mask with
    0xffff. -/
def onHiaddrRel (id : String) (source_address : Nat) (stk : List Fixup) : List Fixup :=
  addBinaryEvaluator .kAnd
    (addLiteral 65535
      (addBinaryEvaluator .kRsh
        (addLiteral 16
          (addSymbolResolve id true source_address stk))))

/-- GekkoIRPlugin::OnCloseParen in double-pass mode: only a relative
    (back-tick) close paren changes the fixup stack. -/
def onCloseParenRel (type : ParenType) (inst_address : Nat) (stk : List Fixup) :
    List Fixup :=
  if type = ParenType.kRelConv then addAbsoluteAddressConv inst_address stk else stk

/-! ## Single-pass (directive) evaluation stack, u32-typed instance -/

/-- GekkoIRPlugin::PushCast onto a u32-typed eval stack (head is the top,
    matching the back of the C++ vector). -/
def pushCastU32 (v : Nat) (stack : List Nat) : List Nat :=
  v % 2 ^ 32 :: stack

/-- GekkoIRPlugin::EvalOperatorAbs on a u32-typed eval stack: binary
    operators pop the right operand and replace the new top in place;
    unary operators replace the top in place. -/
def evalOperatorAbsU32 (operation : AsmOp) (stack : List Nat) : List Nat :=
  match operation with
  | .kNeg | .kNot =>
      match stack with
      | top :: rest => evalUnOp operation top :: rest
      | _ => stack
  | _ =>
      match stack with
      | rhs :: lhs :: rest => evalBinOp operation lhs rhs :: rest
      | _ => stack

/-- GekkoIRPlugin::OnHiaddr in single-pass (directive) mode on a u32
    stack: push the label or constant value, then shift right 16 and
    mask 0xffff; an unknown identifier is the error case (none). -/
def onHiaddrAbs (labels constants : List (String × Nat)) (id : String)
    (stack : List Nat) : Option (List Nat) :=
  match labels.lookup id with
  | some v =>
      some (evalOperatorAbsU32 .kAnd (pushCastU32 65535
        (evalOperatorAbsU32 .kRsh (pushCastU32 16 (pushCastU32 v stack)))))
  | none =>
    match constants.lookup id with
    | some v =>
        some (evalOperatorAbsU32 .kAnd (pushCastU32 65535
          (evalOperatorAbsU32 .kRsh (pushCastU32 16 (pushCastU32 v stack)))))
    | none => none

/-- GekkoIRPlugin::OnCloseParen in single-pass (directive) mode: push the
    current address and apply the subtraction operator, whatever the
    paren type is. -/
def onCloseParenAbs (current_address : Nat) (stack : List Nat) : List Nat :=
  evalOperatorAbsU32 .kSub (pushCastU32 current_address stack)

/-- The @ha value mandated by the spec: ((S + 0x8000) >> 16) & 0xFFFF,
    computed in u32. -/
def specHaFormula (s : Nat) : Nat :=
  ((s + 32768) % 2 ^ 32) >>> 16 &&& 65535

/-! ## Statement-level model of parsing with the IR plugin

  ParseWithPlugin drives the grammar and issues callouts; the IR plugin
  reacts to them. The model keeps the statement granularity: a label
  declaration, a .defvar directive with an already-evaluated u64 value,
  or an instruction with a list of operand expressions evaluated in
  double-pass mode. -/

inductive GekkoExpr where
  | lit (v : Nat)
  | ident (name : String)
  | binExpr (op : AsmOp) (lhs rhs : GekkoExpr)
deriving DecidableEq, Repr

/-- EvalTerminalRel / EvalOperatorRel: the fixup built for one operand
    expression. A label known at parse time becomes an absolute literal,
    a known constant becomes its u32-cast literal, an unknown identifier
    becomes a deferred non-absolute symbol resolve capturing the current
    end address. -/
def buildFixup (labels constants : List (String × Nat)) (source_address : Nat) :
    GekkoExpr → Fixup
  | .lit v => .lit v
  | .ident n =>
      match labels.lookup n with
      | some v => .lit v
      | none =>
        match constants.lookup n with
        | some v => .lit (v % 2 ^ 32)
        | none => .symRes n false source_address (unresolvedErr n)
  | .binExpr op lhs rhs =>
      .binOp op (buildFixup labels constants source_address lhs)
        (buildFixup labels constants source_address rhs)

inductive GekkoStmt where
  | labelDecl (name : String)
  | defvar (name : String) (value : Nat)
  | instr (mnemonic_index : Nat) (extended : Bool) (operands : List GekkoExpr)
deriving DecidableEq, Repr

/-- The duplicate-definition error of OnLabelDecl / OnVarDecl. -/
def dupErr (name : String) : AssemblerError :=
  ⟨"Label/Constant " ++ name ++ " is already defined", "", 0, 0, name.length⟩

/-- std::map insert-or-assign, as an association list. -/
def mapInsert (m : List (String × Nat)) (k : String) (v : Nat) : List (String × Nat) :=
  if (m.lookup k).isSome then m.map (fun p => if p.1 = k then (k, v) else p)
  else m ++ [(k, v)]

/-- The full state of GekkoIRPlugin that the statement-level model
    tracks: output blocks (the active block is the last one), the two
    symbol tables, the shared defined-names set, the emitted operand
    fixups with the parallel operand pool, and the parse-state error. -/
structure GenState where
  blocks : List IRBlock
  labels : List (String × Nat)
  constants : List (String × Nat)
  symset : List String
  operand_fixups : List Fixup
  operand_pool : List Nat
  error : Option AssemblerError
deriving DecidableEq, Repr

/-- End address of the active block (GekkoIRPlugin::CurrentAddress). -/
def curAddr (st : GenState) : Nat :=
  currentEndAddress st.blocks

/-- GekkoIRPlugin::GetChunk specialised to appending one instruction:
    extend a trailing instruction chunk, else open a new one. -/
def addInstruction (b : IRBlock) (gi : GekkoInstruction) : IRBlock :=
  match b.chunks.getLast? with
  | some (.instChunk l) => ⟨b.chunks.dropLast ++ [.instChunk (l ++ [gi])], b.block_address⟩
  | _ => ⟨b.chunks ++ [.instChunk [gi]], b.block_address⟩

/-- Apply an update to the active (last) block. -/
def setActive (blocks : List IRBlock) (f : IRBlock → IRBlock) : List IRBlock :=
  blocks.dropLast ++ [f (blocks.getLastD ⟨[], 0⟩)]

/-- One statement of parsing, in the callout order of the parser: the
    parser checks the error cell before every production, so a set error
    freezes the state. A label declaration is OnLabelDecl; .defvar is
    OnVarDecl plus the value assignment of OnDirectivePost; an
    instruction is OnInstructionPre, one SaveOperandFixup per operand
    (each operand fixup captures the same end address, taken before the
    instruction is appended), then FinishInstruction. -/
def parseStmt (st : GenState) (s : GekkoStmt) : GenState :=
  if st.error.isSome then st
  else
    match s with
    | .labelDecl n =>
        if st.symset.contains n then { st with error := some (dupErr n) }
        else
          { st with labels := mapInsert st.labels n (curAddr st),
                    symset := st.symset ++ [n] }
    | .defvar n v =>
        if st.symset.contains n then { st with error := some (dupErr n) }
        else
          { st with constants := mapInsert st.constants n v,
                    symset := st.symset ++ [n] }
    | .instr mi ext ops =>
        let a := curAddr st
        let fixups := ops.map (buildFixup st.labels st.constants a)
        let gi : GekkoInstruction := ⟨mi, st.operand_pool.length, ops.length, "", 0, ext⟩
        { st with
          blocks := setActive st.blocks (fun b => addInstruction b gi),
          operand_fixups := st.operand_fixups ++ fixups,
          operand_pool := st.operand_pool ++ ops.map (fun _ => 0) }

/-- The initial plugin state: one empty block at the base address. -/
def initState (base : Nat) : GenState :=
  ⟨[⟨[], base⟩], [], [], [], [], [], none⟩

/-- The parse phase: fold the statements left to right. -/
def parseProgram (p : List GekkoStmt) (base : Nat) : GenState :=
  p.foldl parseStmt (initState base)

/-- ParseWithPlugin followed by PostParseAction: when parsing set no
    error, RunFixups rewrites the operand pool against the completed
    symbol tables. -/
def runPipeline (p : List GekkoStmt) (base : Nat) : GenState :=
  let st := parseProgram p base
  match st.error with
  | some _ => st
  | none =>
      let r := runFixups st.labels st.constants st.operand_fixups none
      { st with operand_pool := r.1, error := r.2 }

/-! ## Lexer lookahead buffer (GekkoLexer.cpp / GekkoLexer.h)

  Lexer::LookaheadTagRef(num_fwd) loops while the buffered-token deque
  holds fewer than num_fwd tokens, calling LookaheadRef each iteration,
  and finally indexes the deque at num_fwd. LookaheadRef appends one
  freshly lexed token only when the deque is empty, so only the size of
  the deque matters for the control flow; the model tracks that size. -/

/-- Effect of Lexer::LookaheadRef on the size of the buffered deque:
    one token is appended only when the deque is empty. -/
def lookaheadRefSize (sz : Nat) : Nat :=
  if sz = 0 then 1 else sz

/-- The while loop of Lexer::LookaheadTagRef, with explicit fuel: some
    final size when the loop guard fails within the fuel bound, none
    otherwise. The subsequent deque access lexed_tokens[num_fwd] is in
    bounds only when num_fwd is less than the returned size. -/
def lookaheadTagLoop (num_fwd : Nat) : Nat → Nat → Option Nat
  | 0, _ => none
  | fuel + 1, sz =>
      if sz < num_fwd then lookaheadTagLoop num_fwd fuel (lookaheadRefSize sz)
      else some sz

/-! ## Lexer (GekkoLexer.h / GekkoLexer.cpp)

  The scan cursor is modelled as the remaining character list; Peek on
  an exhausted input yields the NUL that the C++ Peek returns. The
  character-class predicates follow the C default locale on ASCII. -/

inductive TokenType where
  | kInvalid | kIdentifier | kStringLit | kHexadecimalLit | kDecimalLit | kOctalLit
  | kBinaryLit | kFloatLit | kGPR | kFPR | kCRField | kSPR | kLt | kGt | kEq | kSo
  | kEol | kEof | kDot | kColon | kComma | kLparen | kRparen | kPipe | kCaret
  | kAmpersand | kLsh | kRsh | kPlus | kMinus | kStar | kSlash | kTilde | kGrave | kAt
deriving DecidableEq, Repr

inductive IdentifierMatchRule where
  | kTypical | kMnemonic | kDirective
deriving DecidableEq, Repr

def cIsSpace (c : Char) : Bool :=
  c = ' ' || c = '\t' || c = '\n' || c = '\x0b' || c = '\x0c' || c = '\r'

def cIsDigit (c : Char) : Bool := '0' ≤ c && c ≤ '9'

def cIsAlpha (c : Char) : Bool := ('a' ≤ c && c ≤ 'z') || ('A' ≤ c && c ≤ 'Z')

def cIsAlnum (c : Char) : Bool := cIsAlpha c || cIsDigit c

def cIsXdigit (c : Char) : Bool :=
  cIsDigit c || ('a' ≤ c && c ≤ 'f') || ('A' ≤ c && c ≤ 'F')

/-- is_octal (GekkoLexer.cpp). -/
def is_octal (c : Char) : Bool := '0' ≤ c && c ≤ '7'

/-- is_binary (GekkoLexer.cpp). -/
def is_binary (c : Char) : Bool := c = '0' || c = '1'

/-- single_char_token (GekkoLexer.cpp): the one-character tokens; the
    NUL produced by Peek at end of input is the EOF token and everything
    not listed is invalid. -/
def single_char_token (ch : Char) : TokenType :=
  if ch = ',' then .kComma
  else if ch = '(' then .kLparen
  else if ch = ')' then .kRparen
  else if ch = '|' then .kPipe
  else if ch = '^' then .kCaret
  else if ch = '&' then .kAmpersand
  else if ch = '+' then .kPlus
  else if ch = '-' then .kMinus
  else if ch = '*' then .kStar
  else if ch = '/' then .kSlash
  else if ch = '~' then .kTilde
  else if ch = '@' then .kAt
  else if ch = ':' then .kColon
  else if ch = '`' then .kGrave
  else if ch = '.' then .kDot
  else if ch = '\x00' then .kEof
  else if ch = '\n' then .kEol
  else .kInvalid

/-- The SPR-name table sprg_map (AssemblerTables.cpp), keys only. -/
def sprgNames : List String :=
  ["xer", "lr", "ctr", "dsisr", "dar", "dec", "sdr1", "srr0",
   "srr1", "sprg0", "sprg1", "sprg2", "sprg3", "ear", "tbl", "tbu",
   "ibat0u", "ibat0l", "ibat1u", "ibat1l", "ibat2u", "ibat2l", "ibat3u", "ibat3l",
   "dbat0u", "dbat0l", "dbat1u", "dbat1l", "dbat2u", "dbat2l", "dbat3u", "dbat3l",
   "gqr0", "gqr1", "gqr2", "gqr3", "gqr4", "gqr5", "gqr6", "gqr7",
   "hid2", "wpar", "dma_u", "dma_l",
   "ummcr0", "upmc1", "upmc2", "usia", "ummcr1", "upmc3", "upmc4", "usda",
   "mmcr0", "pmc1", "pmc2", "sia", "mmcr1", "pmc3", "pmc4", "sda",
   "hid0", "hid1", "iabr", "dabr", "l2cr", "ictc", "thrm1", "thrm2", "thrm3"]

/-- The valid_regnum helper of Lexer::ClassifyAlnum. -/
def valid_regnum (rn : List Char) : Bool :=
  match rn with
  | [c] => cIsDigit c
  | [c0, c1] =>
      cIsDigit c0 && cIsDigit c1 &&
        (c0 = '1' || c0 = '2' || (c0 = '3' && c1 ≤ '2'))
  | _ => false

/-- Lexer::ClassifyAlnum on the scanned identifier characters. -/
def classifyAlnum (alnum : List Char) : TokenType :=
  match alnum with
  | [] => .kIdentifier
  | h :: t =>
      if h = 'r' && valid_regnum t then .kGPR
      else if h = 'f' && valid_regnum t then .kFPR
      else if (match alnum with
               | ['c', 'r', c2] => '0' ≤ c2 && c2 ≤ '7'
               | _ => false) then .kCRField
      else if alnum = ['l', 't'] then .kLt
      else if alnum = ['g', 't'] then .kGt
      else if alnum = ['e', 'q'] then .kEq
      else if alnum = ['s', 'o'] then .kSo
      else if sprgNames.contains (String.mk alnum) then .kSPR
      else .kIdentifier

/-- Lexer::IdentifierHeadExtra. -/
def identifierHeadExtra (rule : IdentifierMatchRule) (h : Char) : Bool :=
  match rule with
  | .kTypical | .kMnemonic => false
  | .kDirective => cIsDigit h

/-- Lexer::IdentifierExtra. -/
def identifierExtra (rule : IdentifierMatchRule) (c : Char) : Bool :=
  match rule with
  | .kTypical | .kDirective => false
  | .kMnemonic => c = '+' || c = '-' || c = '.'

/-- Lexer::SkipWs: skip whitespace other than newline. -/
def skipWs (input : List Char) : List Char :=
  input.dropWhile (fun c => cIsSpace c && c ≠ '\n')

/-- One DFA node: transition edges plus the failure reason of non-final
    nodes (AssemblerTables.h). -/
structure DfaNode where
  edges : List ((Char → Bool) × Nat)
  match_failure_reason : Option String

/-- Lexer::RunDfa: follow the first matching edge per character, stop at
    end of input or when no edge matches; returns the final node index
    and the unconsumed input. -/
def runDfa (dfa : List DfaNode) : Nat → List Char → Nat × List Char
  | idx, [] => (idx, [])
  | idx, c :: rest =>
      match (dfa.getD idx ⟨[], none⟩).edges.find? (fun e => e.1 c) with
      | some e => runDfa dfa e.2 rest
      | none => (idx, c :: rest)

/-- The C-style string DFA (AssemblerTables.cpp string_dfa). -/
def string_dfa : List DfaNode :=
  [⟨[(fun c => c ≠ '\n' && c ≠ '"' && c ≠ '\\', 0), (fun c => c = '\n', 1),
     (fun c => c = '"', 2), (fun c => c = '\\', 3)],
    some "Invalid string: No terminating \""⟩,
   ⟨[], some "Invalid string: No terminating \""⟩,
   ⟨[], none⟩,
   ⟨[(fun c => !is_octal c && c ≠ 'x' && c ≠ '\n', 0), (fun c => c = '\n', 1),
     (fun c => is_octal c, 4), (fun c => c = 'x', 6)],
    some "Invalid string: No terminating \""⟩,
   ⟨[(fun c => (c ≠ '\n' && c ≠ '"' && c ≠ '\\') && !is_octal c, 0),
     (fun c => c = '\n', 1), (fun c => c = '"', 2), (fun c => c = '\\', 3),
     (fun c => is_octal c, 5)],
    some "Invalid string: No terminating \""⟩,
   ⟨[(fun c => c ≠ '\n' && c ≠ '"' && c ≠ '\\', 0), (fun c => c = '\n', 1),
     (fun c => c = '"', 2), (fun c => c = '\\', 3)],
    some "Invalid string: No terminating \""⟩,
   ⟨[(fun c => cIsXdigit c, 7)], some "Invalid string: bad hex escape"⟩,
   ⟨[(fun c => (c ≠ '\n' && c ≠ '"' && c ≠ '\\') && !cIsXdigit c, 0),
     (fun c => c = '\n', 1), (fun c => c = '"', 2), (fun c => c = '\\', 3),
     (fun c => cIsXdigit c, 7)],
    some "Invalid string: No terminating \""⟩]

/-- AssemblerToken (GekkoLexer.h), with the lexeme as a character list
    and the invalid region as (begin, len). -/
structure AssemblerToken where
  token_type : TokenType
  token_val : List Char
  invalid_reason : String
  invalid_region : Nat × Nat
deriving DecidableEq, Repr

/-- Lexer::LexSingle: skip leading whitespace, dispatch on the head
    character, scan one token and skip trailing whitespace; returns the
    token and the rest of the input. -/
def lexSingle (rule : IdentifierMatchRule) (input : List Char) :
    AssemblerToken × List Char :=
  match skipWs input with
  | [] => (⟨.kEof, [], "", (0, 0)⟩, [])
  | h :: t =>
      let r :=
        if cIsAlpha h || h = '_' || identifierHeadExtra rule h then
          let body := t.takeWhile (fun c => cIsAlnum c || c = '_' || identifierExtra rule c)
          (⟨classifyAlnum (h :: body), h :: body, "", (0, 0)⟩,
           t.dropWhile (fun c => cIsAlnum c || c = '_' || identifierExtra rule c))
        else if h = '"' then
          let d := runDfa string_dfa 0 t
          let consumed := h :: t.take (t.length - d.2.length)
          match (string_dfa.getD d.1 ⟨[], none⟩).match_failure_reason with
          | none => (⟨.kStringLit, consumed, "", (0, 0)⟩, d.2)
          | some reason => (⟨.kInvalid, consumed, reason, (0, consumed.length)⟩, d.2)
        else if h = '0' then
          match t with
          | 'x' :: t2 =>
              (⟨.kHexadecimalLit, '0' :: 'x' :: t2.takeWhile cIsXdigit, "", (0, 0)⟩,
               t2.dropWhile cIsXdigit)
          | 'b' :: t2 =>
              (⟨.kBinaryLit, '0' :: 'b' :: t2.takeWhile is_binary, "", (0, 0)⟩,
               t2.dropWhile is_binary)
          | t2 =>
              if (match t2 with
                  | c :: _ => is_octal c
                  | [] => false) then
                (⟨.kOctalLit, '0' :: t2.takeWhile is_octal, "", (0, 0)⟩,
                 t2.dropWhile is_octal)
              else
                (⟨.kDecimalLit, ['0'], "", (0, 0)⟩, t2)
        else if cIsDigit h then
          (⟨.kDecimalLit, h :: t.takeWhile cIsDigit, "", (0, 0)⟩, t.dropWhile cIsDigit)
        else if h = '<' || h = '>' then
          match t with
          | c :: t2 =>
              if c = h then
                (⟨if c = '<' then .kLsh else .kRsh, [h, c], "", (0, 0)⟩, t2)
              else
                (⟨.kInvalid, [h], "Unrecognized character", (0, 1)⟩, c :: t2)
          | [] => (⟨.kInvalid, [h], "Unrecognized character", (0, 1)⟩, [])
        else
          if single_char_token h = .kInvalid then
            (⟨.kInvalid, [h], "Unrecognized character", (0, 1)⟩, t)
          else
            (⟨single_char_token h, [h], "", (0, 0)⟩, t)
      (r.1, skipWs r.2)

/-- Lex a whole input to a token list (fuel-bounded; the fuel only needs
    to exceed the number of tokens). -/
def lexTokens (fuel : Nat) (rule : IdentifierMatchRule) (input : List Char) :
    List AssemblerToken :=
  match fuel with
  | 0 => []
  | fuel + 1 =>
      let r := lexSingle rule input
      if r.1.token_type = .kEof then [r.1] else r.1 :: lexTokens fuel rule r.2

/-! ## Theorems -/

/-! ### Bit-manipulation toolkit -/

theorem land_two_pow_sub_one (v k : Nat) : v &&& (2 ^ k - 1) = v % 2 ^ k := by
  apply Nat.eq_of_testBit_eq
  intro i
  simp [Nat.testBit_land, Nat.testBit_two_pow_sub_one, Nat.testBit_mod_two_pow, Bool.and_comm]

theorem testBit_two_pow_sub_two_pow (a b i : Nat) (hab : a ≤ b) :
    (2 ^ (b + 1) - 2 ^ a).testBit i = decide (a ≤ i ∧ i < b + 1) := by
  have hmask : 2 ^ (b + 1) - 2 ^ a = (2 ^ (b + 1 - a) - 1) <<< a := by
    rw [Nat.shiftLeft_eq, Nat.sub_mul, ← pow_add, one_mul]
    congr 2
    omega
  rw [hmask]
  simp only [Nat.testBit_shiftLeft, Nat.testBit_two_pow_sub_one]
  by_cases hai : a ≤ i
  · have : i - a < b + 1 - a ↔ i < b + 1 := by omega
    simp [hai, this]
  · simp [hai, hai ∘ And.left]

theorem land_bit_range (v a b : Nat) (hab : a ≤ b) :
    v &&& (2 ^ (b + 1) - 2 ^ a) = v % 2 ^ (b + 1) / 2 ^ a * 2 ^ a := by
  have hrhs : v % 2 ^ (b + 1) / 2 ^ a * 2 ^ a = ((v % 2 ^ (b + 1)) >>> a) <<< a := by
    rw [Nat.shiftRight_eq_div_pow, Nat.shiftLeft_eq]
  rw [hrhs]
  apply Nat.eq_of_testBit_eq
  intro i
  simp only [Nat.testBit_land, testBit_two_pow_sub_two_pow a b i hab, Nat.testBit_shiftLeft,
             Nat.testBit_shiftRight, Nat.testBit_mod_two_pow]
  by_cases hai : a ≤ i
  · have hcan : a + (i - a) = i := by omega
    have : (i < b + 1) = (a + (i - a) < b + 1) := by rw [hcan]
    simp [hai, hcan]
    by_cases hib : i < b + 1 <;> simp [hib]
  · simp [hai, hai ∘ And.left]

theorem shl_land_shr (v m s : Nat) : ((v <<< s) &&& m) >>> s = v &&& (m >>> s) := by
  apply Nat.eq_of_testBit_eq
  intro i
  simp [Nat.testBit_shiftRight, Nat.testBit_land, Nat.testBit_shiftLeft,
        Nat.le_add_right, Nat.add_sub_cancel_left]

theorem mod_two_pow_land (x m : Nat) (hm : m < 2 ^ 32) : (x % 2 ^ 32) &&& m = x &&& m := by
  apply Nat.eq_of_testBit_eq
  intro i
  simp only [Nat.testBit_land, Nat.testBit_mod_two_pow]
  by_cases h : i < 32
  · simp [h]
  · have hmi : m.testBit i = false := by
      apply Nat.testBit_lt_two_pow
      calc m < 2 ^ 32 := hm
        _ ≤ 2 ^ i := Nat.pow_le_pow_right (by norm_num) (by omega)
    simp [h, hmi]

theorem land_self_nat (m : Nat) : m &&& m = m := by
  apply Nat.eq_of_testBit_eq
  intro i
  simp [Nat.testBit_land]

theorem fit_field (d : OperandDesc) (v : Nat) (hm : d.mask < 2 ^ 32) :
    ((d.Fit v) &&& d.mask) >>> d.shift = v &&& (d.mask >>> d.shift) := by
  unfold OperandDesc.Fit
  rw [mod_two_pow_land _ _ hm, Nat.land_assoc, land_self_nat, shl_land_shr]

theorem fits_iff_decode_unsigned (m s v : Nat) (hm : m < 2 ^ 32) :
    (OperandDesc.Fits ⟨m, s, false⟩ v = true) ↔
      specFieldDecode ⟨m, s, false⟩ (OperandDesc.Fit ⟨m, s, false⟩ v) = v := by
  have hfield := fit_field ⟨m, s, false⟩ v hm
  simp only [OperandDesc.Fits, specFieldDecode, Bool.false_eq_true, if_false,
             false_and, decide_eq_true_eq] at hfield ⊢
  rw [hfield, Nat.land_comm]

theorem hibit_of_range (a b : Nat) (hab : a ≤ b) (_hb : b + 1 < 32) :
    (2 ^ (b + 1) - 2 ^ a) &&& ((2 ^ (b + 1) - 2 ^ a) ^^^ ((2 ^ (b + 1) - 2 ^ a) >>> 1)) =
      2 ^ b := by
  apply Nat.eq_of_testBit_eq
  intro i
  simp only [Nat.testBit_land, Nat.testBit_xor, Nat.testBit_shiftRight,
             testBit_two_pow_sub_two_pow _ _ _ hab, Nat.testBit_two_pow]
  by_cases h1 : a ≤ i ∧ i < b + 1
  · by_cases h2 : a ≤ 1 + i ∧ 1 + i < b + 1
    · have hne : b ≠ i := by omega
      simp [h1, h2, hne]
    · have heq : b = i := by omega
      simp [h1, h2, heq]
      omega
  · have hne : b ≠ i := by omega
    simp [h1, hne]

theorem lobit_of_range (a b : Nat) (hab : a ≤ b) (hb : b + 1 < 32) :
    (2 ^ (b + 1) - 2 ^ a) &&&
        ((2 ^ (b + 1) - 2 ^ a) ^^^ (((2 ^ (b + 1) - 2 ^ a) <<< 1) % 2 ^ 32)) =
      2 ^ a := by
  have hApos : 0 < 2 ^ a := pow_pos (by norm_num) a
  have hmlt : 2 ^ (b + 1) - 2 ^ a < 2 ^ 31 := by
    have h31 : (2 : Nat) ^ (b + 1) ≤ 2 ^ 31 := Nat.pow_le_pow_right (by norm_num) (by omega)
    omega
  have hnomod : ((2 ^ (b + 1) - 2 ^ a) <<< 1) % 2 ^ 32 = (2 ^ (b + 1) - 2 ^ a) <<< 1 := by
    apply Nat.mod_eq_of_lt
    rw [Nat.shiftLeft_eq]
    have h32 : (2 : Nat) ^ 31 * 2 ^ 1 = 2 ^ 32 := by norm_num
    have h21 : (2 : Nat) ^ 1 = 2 := by norm_num
    rw [h21] at h32 ⊢
    omega
  rw [hnomod]
  apply Nat.eq_of_testBit_eq
  intro i
  simp only [Nat.testBit_land, Nat.testBit_xor, Nat.testBit_shiftLeft,
             testBit_two_pow_sub_two_pow _ _ _ hab, Nat.testBit_two_pow]
  by_cases h1 : a ≤ i ∧ i < b + 1
  · by_cases h2 : 1 ≤ i
    · by_cases h3 : a ≤ i - 1 ∧ i - 1 < b + 1
      · have hne : a ≠ i := by omega
        simp [h1, h2, h3, hne]
      · have heq : a = i := by omega
        simp [h1, h2, h3, heq]
        omega
    · have heq : a = i := by omega
      simp [h1, h2, heq]
  · have hne : a ≠ i := by omega
    simp [h1, hne]

theorem signed_range_core (A B M F v : Nat) (_hA : 0 < A) (hB : 0 < B) (hAB : A ∣ B)
    (hBM : 2 * B ∣ M) (hv : v < M) (hF : F = v % (2 * B) / A * A) :
    ((v ≤ B - 1 ∨ M - B ≤ v) ∧ v % A = 0) ↔ (if B ≤ F then F + (M - 2 * B) else F) = v := by
  have h2B : 0 < 2 * B := by omega
  have hBM_le : 2 * B ≤ M := Nat.le_of_dvd (by omega) hBM
  have hx_lt : v % (2 * B) < 2 * B := Nat.mod_lt _ h2B
  have hA2B : A ∣ 2 * B := Dvd.dvd.mul_left hAB 2
  have hxmodA : v % (2 * B) % A = v % A := Nat.mod_mod_of_dvd v hA2B
  have hF_le : F ≤ v % (2 * B) := by rw [hF]; exact Nat.div_mul_le_self _ _
  have hFmodA : F % A = 0 := by rw [hF]; exact Nat.mul_mod_left _ _
  have hAM : A ∣ M := dvd_trans hA2B hBM
  have hAMsub : (M - 2 * B) % A = 0 := by
    rcases Nat.dvd_sub' hAM hA2B with ⟨k, hk⟩
    simp [hk, Nat.mul_mod_right]
  have hMsub : (M - 2 * B) % (2 * B) = 0 := by
    rcases Nat.dvd_sub' hBM dvd_rfl with ⟨k, hk⟩
    simp [hk, Nat.mul_mod_right]
  constructor
  · rintro ⟨hrange, htr⟩
    have hxa : v % (2 * B) % A = 0 := by rw [hxmodA]; exact htr
    have hxF : F = v % (2 * B) := by
      rw [hF]; exact Nat.div_mul_cancel (Nat.dvd_of_mod_eq_zero hxa)
    rcases hrange with hle | hge
    · have hv_lt : v < 2 * B := by omega
      have hxv : v % (2 * B) = v := Nat.mod_eq_of_lt hv_lt
      rw [if_neg (by omega)]
      omega
    · have hvsplit : v = (M - 2 * B) + (v - (M - 2 * B)) := by omega
      have hxv : v % (2 * B) = v - (M - 2 * B) := by
        conv_lhs => rw [hvsplit]
        rw [Nat.add_mod, hMsub, Nat.zero_add, Nat.mod_mod_of_dvd _ (dvd_refl (2 * B))]
        exact Nat.mod_eq_of_lt (by omega)
      rw [if_pos (by omega)]
      omega
  · intro h
    by_cases hcond : B ≤ F
    · rw [if_pos hcond] at h
      refine ⟨Or.inr (by omega), ?_⟩
      have : (F + (M - 2 * B)) % A = 0 := by
        rw [Nat.add_mod, hFmodA, hAMsub]
        simp
      rw [← h]
      exact this
    · rw [if_neg hcond] at h
      refine ⟨Or.inl (by omega), ?_⟩
      rw [← h]
      exact hFmodA

theorem fits_iff_decode_signed (a b v : Nat) (hab : a ≤ b) (hb : b + 1 < 32)
    (hv : v < 2 ^ 32) :
    (OperandDesc.Fits ⟨2 ^ (b + 1) - 2 ^ a, 0, true⟩ v = true) ↔
      specFieldDecode ⟨2 ^ (b + 1) - 2 ^ a, 0, true⟩
        (OperandDesc.Fit ⟨2 ^ (b + 1) - 2 ^ a, 0, true⟩ v) = v := by
  have hApos : 0 < 2 ^ a := pow_pos (by norm_num) a
  have hBpos : 0 < 2 ^ b := pow_pos (by norm_num) b
  have hB32 : (2 : Nat) ^ (b + 1) ≤ 2 ^ 32 := Nat.pow_le_pow_right (by norm_num) (by omega)
  have h2b1 : (2 : Nat) ^ (b + 1) = 2 * 2 ^ b := by ring
  have hAB : (2 : Nat) ^ a ≤ 2 ^ b := Nat.pow_le_pow_right (by norm_num) hab
  have hhib := hibit_of_range a b hab hb
  have hlob := lobit_of_range a b hab hb
  have hmlt32 : 2 ^ (b + 1) - 2 ^ a < 2 ^ 32 := by omega
  have hfit : OperandDesc.Fit ⟨2 ^ (b + 1) - 2 ^ a, 0, true⟩ v =
      v &&& (2 ^ (b + 1) - 2 ^ a) := by
    unfold OperandDesc.Fit
    simp only [Nat.shiftLeft_zero]
    rw [mod_two_pow_land _ _ hmlt32]
  have hpm : sub32 (2 ^ b) 1 = 2 ^ b - 1 := by unfold sub32; omega
  have hnm : compl32 (2 ^ b - 1) = 2 ^ 32 - 2 ^ b := by unfold compl32; omega
  have htb : sub32 (2 ^ a) 1 = 2 ^ a - 1 := by unfold sub32; omega
  have hABdvd : (2 : Nat) ^ a ∣ 2 ^ b := pow_dvd_pow 2 hab
  have hBMdvd : 2 * 2 ^ b ∣ 2 ^ 32 := by
    rw [← h2b1]; exact pow_dvd_pow 2 (by omega)
  have hcore := signed_range_core (2 ^ a) (2 ^ b) (2 ^ 32)
    (v % (2 * 2 ^ b) / 2 ^ a * 2 ^ a) v hApos hBpos hABdvd hBMdvd hv rfl
  simp only [OperandDesc.Fits, specFieldDecode, Nat.shiftRight_zero, hhib, hlob, hpm, hnm,
             htb, if_true, true_and, hfit, Nat.land_assoc, land_self_nat,
             land_two_pow_sub_one,
             Bool.and_eq_true, Bool.or_eq_true, decide_eq_true_eq]
  rw [land_bit_range v a b hab]
  rw [← h2b1] at hcore
  rw [← h2b1]
  exact hcore

/-- C2: for every operand descriptor D in the fixed catalogue and every
    u32 value v, D.Fits v holds exactly when decoding the encoded field
    D.Fit v (shift the masked field back down, sign-extend when the
    descriptor is signed, truncated low bits stay zero) yields v again. -/
theorem c2_operand_fit_decidable (d : OperandDesc) (hd : d ∈ operandCatalogue)
    (v : Nat) (hv : v < 2 ^ 32) :
    d.Fits v = true ↔ specFieldDecode d (d.Fit v) = v := by
  simp only [operandCatalogue, List.mem_cons, List.not_mem_nil, or_false] at hd
  rcases hd with rfl | rfl | rfl | rfl | rfl | rfl | rfl | rfl | rfl | rfl | rfl | rfl | rfl |
    rfl | rfl | rfl | rfl | rfl | rfl | rfl | rfl | rfl | rfl | rfl | rfl | rfl | rfl | rfl |
    rfl | rfl | rfl | rfl | rfl | rfl
  · exact fits_iff_decode_unsigned (maskLR 11 15) 16 v (by decide)
  · exact fits_iff_decode_unsigned (maskLR 16 20) 11 v (by decide)
  · exact fits_iff_decode_signed 2 15 v (by omega) (by omega) hv
  · exact fits_iff_decode_unsigned (maskLR 11 15) 16 v (by decide)
  · exact fits_iff_decode_unsigned (maskLR 6 10) 21 v (by decide)
  · exact fits_iff_decode_unsigned (maskLR 21 25) 6 v (by decide)
  · exact fits_iff_decode_unsigned (maskLR 11 15) 16 v (by decide)
  · exact fits_iff_decode_unsigned (maskLR 16 20) 11 v (by decide)
  · exact fits_iff_decode_unsigned (maskLR 6 10) 21 v (by decide)
  · exact fits_iff_decode_unsigned (maskLR 6 8) 23 v (by decide)
  · exact fits_iff_decode_unsigned (maskLR 11 13) 18 v (by decide)
  · exact fits_iff_decode_unsigned (maskLR 12 19) 12 v (by decide)
  · exact fits_iff_decode_unsigned (maskLR 6 10) 21 v (by decide)
  · exact fits_iff_decode_unsigned (maskLR 7 14) 17 v (by decide)
  · exact fits_iff_decode_unsigned (maskLR 16 16) 15 v (by decide)
  · exact fits_iff_decode_unsigned (maskLR 21 21) 10 v (by decide)
  · exact fits_iff_decode_unsigned (maskLR 16 19) 12 v (by decide)
  · exact fits_iff_decode_unsigned (maskLR 10 10) 21 v (by decide)
  · exact fits_iff_decode_signed 2 25 v (by omega) (by omega) hv
  · exact fits_iff_decode_unsigned (maskLR 21 25) 6 v (by decide)
  · exact fits_iff_decode_unsigned (maskLR 26 30) 1 v (by decide)
  · exact fits_iff_decode_unsigned (maskLR 16 20) 11 v (by decide)
  · exact fits_iff_decode_signed 0 15 v (by omega) (by omega) hv
  · exact fits_iff_decode_signed 0 12 v (by omega) (by omega) hv
  · exact fits_iff_decode_unsigned (maskLR 6 10) 21 v (by decide)
  · exact fits_iff_decode_unsigned (maskLR 16 20) 11 v (by decide)
  · exact fits_iff_decode_signed 0 15 v (by omega) (by omega) hv
  · exact fits_iff_decode_unsigned (maskLR 11 20) 11 v (by decide)
  · exact fits_iff_decode_unsigned (maskLR 12 15) 16 v (by decide)
  · exact fits_iff_decode_unsigned (maskLR 6 10) 21 v (by decide)
  · exact fits_iff_decode_unsigned (maskLR 11 20) 11 v (by decide)
  · exact fits_iff_decode_unsigned (maskLR 16 31) 0 v (by decide)
  · exact fits_iff_decode_unsigned (maskLR 17 19) 12 v (by decide)
  · exact fits_iff_decode_unsigned (maskLR 22 24) 7 v (by decide)

/-- Witness for c2_operand_fit_decidable at the SIMM descriptor and the
    u32 encoding of -0x8000. -/
theorem c2_operand_fit_decidable_witness :
    (opdescSIMM ∈ operandCatalogue ∧ (4294934528 : Nat) < 2 ^ 32) ∧
      (opdescSIMM.Fits 4294934528 = true ↔
        specFieldDecode opdescSIMM (opdescSIMM.Fit 4294934528) = 4294934528) :=
  ⟨⟨by decide, by norm_num⟩,
   c2_operand_fit_decidable opdescSIMM (by decide) 4294934528 (by norm_num)⟩

/-! ### C3: block end address -/

theorem blockEnd_foldl (l : List ChunkVariant) (a : Nat) (ha : a < 2 ^ 32) :
    l.foldl (fun acc c => (acc + chunkSizeU32 c) % 2 ^ 32) a =
      (a + (l.map chunkSize).sum) % 2 ^ 32 := by
  induction l generalizing a with
  | nil => simpa using (Nat.mod_eq_of_lt ha).symm
  | cons c l ih =>
      have hc : chunkSizeU32 c = chunkSize c % 2 ^ 32 := by
        cases c with
        | instChunk insts => simp [chunkSizeU32, chunkSize, Nat.mul_comm]
        | byteChunk bytes => simp [chunkSizeU32, chunkSize]
        | padChunk len => simp [chunkSizeU32, chunkSize]
      have hstep : (a + chunkSizeU32 c) % 2 ^ 32 < 2 ^ 32 :=
        Nat.mod_lt _ (by norm_num)
      simp only [List.foldl_cons, List.map_cons, List.sum_cons]
      rw [ih _ hstep, hc]
      omega

/-- C3: at any point, the end address of an IR block is its base address
    plus the sum of its chunk sizes (4 bytes per instruction, the length
    of a byte chunk, the count of a pad chunk), as a u32. -/
theorem c3_block_end_address (b : IRBlock) (h : b.block_address < 2 ^ 32) :
    b.BlockEndAddress = (b.block_address + (b.chunks.map chunkSize).sum) % 2 ^ 32 := by
  unfold IRBlock.BlockEndAddress
  exact blockEnd_foldl b.chunks b.block_address h

/-- Witness for c3_block_end_address: a block at 0x80000000 holding two
    instructions, three data bytes and five pad bytes. -/
theorem c3_block_end_address_witness :
    (IRBlock.mk
        [ChunkVariant.instChunk [⟨0, 0, 0, "", 0, false⟩, ⟨1, 0, 1, "", 0, true⟩],
         ChunkVariant.byteChunk [222, 173, 190],
         ChunkVariant.padChunk 5] 2147483648).BlockEndAddress =
      (2147483648 +
        ((IRBlock.mk
            [ChunkVariant.instChunk [⟨0, 0, 0, "", 0, false⟩, ⟨1, 0, 1, "", 0, true⟩],
             ChunkVariant.byteChunk [222, 173, 190],
             ChunkVariant.padChunk 5] 2147483648).chunks.map chunkSize).sum) % 2 ^ 32 :=
  c3_block_end_address _ (by norm_num)

/-! ### C9: the .align directive -/

/-- C9: StartBlockAlign is a no-op when the current end address is
    already a multiple of 2 ^ bits, and otherwise starts a new block at
    the end address rounded up to the next multiple of 2 ^ bits (as a
    u32). -/
theorem c9_start_block_align (blocks : List IRBlock) (bits : Nat) (hbits : bits < 32)
    (haddr : currentEndAddress blocks < 2 ^ 32) :
    (currentEndAddress blocks % 2 ^ bits = 0 → startBlockAlign blocks bits = blocks) ∧
      (currentEndAddress blocks % 2 ^ bits ≠ 0 →
        startBlockAlign blocks bits =
          startBlock blocks
            ((currentEndAddress blocks / 2 ^ bits + 1) * 2 ^ bits % 2 ^ 32)) := by
  have hp32 : (2 : Nat) ^ bits ≤ 2 ^ 32 := Nat.pow_le_pow_right (by norm_num) (by omega)
  have hshift : (1 : Nat) <<< bits = 2 ^ bits := Nat.one_shiftLeft bits
  have hmask : ((1 <<< bits) - 1) % 2 ^ 32 = 2 ^ bits - 1 := by
    rw [hshift]; exact Nat.mod_eq_of_lt (by omega)
  have hland : currentEndAddress blocks &&& (2 ^ bits - 1) =
      currentEndAddress blocks % 2 ^ bits :=
    land_two_pow_sub_one _ bits
  have hcompl : compl32 (2 ^ bits - 1) = 2 ^ 32 - 2 ^ bits := by
    unfold compl32
    rw [Nat.mod_eq_of_lt (by omega)]
    omega
  have hrange : currentEndAddress blocks &&& (2 ^ 32 - 2 ^ bits) =
      currentEndAddress blocks / 2 ^ bits * 2 ^ bits := by
    have h := land_bit_range (currentEndAddress blocks) bits 31 (by omega)
    have h32 : (2 : Nat) ^ (31 + 1) = 2 ^ 32 := by norm_num
    rw [h32] at h
    rw [h, Nat.mod_eq_of_lt haddr]
  have hm1 : ((2 : Nat) ^ bits - 1) % 2 ^ 32 = 2 ^ bits - 1 := Nat.mod_eq_of_lt (by omega)
  constructor
  · intro h0
    unfold startBlockAlign
    rw [hshift, hm1, hland]
    simp [h0]
  · intro hne
    unfold startBlockAlign
    rw [hshift, hm1, hland, hcompl, hrange]
    rw [if_pos hne]
    congr 1
    rw [Nat.add_mul, Nat.one_mul, Nat.add_comm]

/-- Witness for c9_start_block_align: one block ending at address 5,
    aligned to 2 ^ 2 = 4. -/
theorem c9_start_block_align_witness :
    ((currentEndAddress [IRBlock.mk [ChunkVariant.padChunk 5] 0] % 2 ^ 2 = 0 →
        startBlockAlign [IRBlock.mk [ChunkVariant.padChunk 5] 0] 2 =
          [IRBlock.mk [ChunkVariant.padChunk 5] 0]) ∧
      (currentEndAddress [IRBlock.mk [ChunkVariant.padChunk 5] 0] % 2 ^ 2 ≠ 0 →
        startBlockAlign [IRBlock.mk [ChunkVariant.padChunk 5] 0] 2 =
          startBlock [IRBlock.mk [ChunkVariant.padChunk 5] 0]
            ((currentEndAddress [IRBlock.mk [ChunkVariant.padChunk 5] 0] / 2 ^ 2 + 1) *
              2 ^ 2 % 2 ^ 32))) ∧
      startBlockAlign [IRBlock.mk [ChunkVariant.padChunk 5] 0] 2 =
        startBlock [IRBlock.mk [ChunkVariant.padChunk 5] 0] 8 :=
  ⟨c9_start_block_align [IRBlock.mk [ChunkVariant.padChunk 5] 0] 2 (by norm_num)
      (by decide),
   by decide⟩

/-! ### C1: the @ha operator -/

/-- C1 (code-bug evidence): with label s = 0x8000, the fixup chain built
    by OnHiaddr in double-pass mode evaluates to (0x8000 >> 16) & 0xffff
    = 0, and the single-pass path pushes the same 0, while the spec
    formula ((S + 0x8000) >> 16) & 0xffff yields 1. The source omits the
    + 0x8000 rounding term in both modes. -/
theorem c1_hiaddr_code_bug :
    ((onHiaddrRel "s" 0 []).map
        (fun f => (evalFixup [("s", 32768)] [] f none).1)) = [0] ∧
      onHiaddrAbs [("s", 32768)] [] "s" [] = some [0] ∧
      specHaFormula 32768 = 1 ∧ (0 : Nat) ≠ 1 := by
  refine ⟨by decide, by decide, by decide, by decide⟩

/-! ### C6: round parentheses -/

/-- C6 (code-bug evidence): in double-pass mode a normal close paren
    leaves the fixup stack unchanged, but in single-pass (directive)
    mode OnCloseParen subtracts the current address regardless of the
    paren type: with current address 0x80000000 the grouped value 5
    becomes 5 - 0x80000000 = 0x80000005 instead of 5. -/
theorem c6_close_paren_code_bug :
    (∀ (stk : List Fixup) (inst_address : Nat),
        onCloseParenRel ParenType.kNormal inst_address stk = stk) ∧
      onCloseParenAbs 2147483648 [5] = [2147483653] ∧ (2147483653 : Nat) ≠ 5 := by
  refine ⟨fun stk inst_address => rfl, by decide, by decide⟩

/-! ### C10: the lookahead buffer -/

/-- C10 (code-bug evidence): with one token already buffered, the
    LookaheadTagRef loop makes no progress for num_fwd = 2 (LookaheadRef
    appends only to an empty deque), so it never terminates for any
    fuel; and for num_fwd = 1 the loop exits at size 1, after which the
    access at index 1 is out of bounds (1 < 1 fails). -/
theorem c10_lookahead_code_bug :
    (∀ fuel, lookaheadTagLoop 2 fuel 1 = none) ∧
      lookaheadTagLoop 1 1 1 = some 1 ∧ ¬(1 < 1) := by
  refine ⟨?_, by decide, by decide⟩
  intro fuel
  induction fuel with
  | zero => rfl
  | succ n ih => simpa [lookaheadTagLoop, lookaheadRefSize] using ih

/-! ### C7: unique definitions across labels and constants -/

theorem lookup_none_iff_not_mem_keys (m : List (String × Nat)) (k : String) :
    m.lookup k = none ↔ k ∉ m.map Prod.fst := by
  induction m with
  | nil => simp
  | cons p t ih =>
      cases p with
      | mk a b =>
          simp only [List.lookup_cons, List.map_cons, List.mem_cons]
          by_cases h : k = a
          · simp [h]
          · have hb : (k == a) = false := by simp [h]
            simp [hb, h, ih]

theorem mapInsert_keys (m : List (String × Nat)) (k : String) (v : Nat) :
    (mapInsert m k v).map Prod.fst =
      if (m.lookup k).isSome then m.map Prod.fst else m.map Prod.fst ++ [k] := by
  unfold mapInsert
  by_cases h : (m.lookup k).isSome
  · simp only [h, if_true, List.map_map]
    apply List.map_congr_left
    intro p _
    by_cases hp : p.1 = k
    · simp [hp]
    · simp [hp]
  · simp [h]

theorem nodup_append_snoc_left (a b : List String) (n : String) (h : (a ++ b).Nodup)
    (hna : n ∉ a) (hnb : n ∉ b) : ((a ++ [n]) ++ b).Nodup := by
  rcases List.nodup_append.mp h with ⟨ha, hb, hd⟩
  refine List.nodup_append.mpr ⟨?_, hb, ?_⟩
  · refine List.nodup_append.mpr ⟨ha, List.nodup_singleton n, ?_⟩
    rw [List.disjoint_left]
    intro x hx hxn
    rw [List.mem_singleton] at hxn
    exact hna (hxn ▸ hx)
  · rw [List.disjoint_left] at hd ⊢
    intro x hx
    rcases List.mem_append.mp hx with hxa | hxn
    · exact hd hxa
    · rw [List.mem_singleton] at hxn
      exact hxn ▸ hnb

theorem nodup_append_snoc_right (a b : List String) (n : String) (h : (a ++ b).Nodup)
    (hna : n ∉ a) (hnb : n ∉ b) : (a ++ (b ++ [n])).Nodup := by
  rcases List.nodup_append.mp h with ⟨ha, hb, hd⟩
  refine List.nodup_append.mpr ⟨ha, ?_, ?_⟩
  · refine List.nodup_append.mpr ⟨hb, List.nodup_singleton n, ?_⟩
    rw [List.disjoint_left]
    intro x hx hxn
    rw [List.mem_singleton] at hxn
    exact hnb (hxn ▸ hx)
  · rw [List.disjoint_left] at hd ⊢
    intro x hx hmem
    rcases List.mem_append.mp hmem with hxb | hxn
    · exact hd hx hxb
    · rw [List.mem_singleton] at hxn
      exact hna (hxn ▸ hx)

theorem parseStmt_preserves_inv (st : GenState) (s : GekkoStmt)
    (hnd : (st.labels.map Prod.fst ++ st.constants.map Prod.fst).Nodup)
    (hl : ∀ k ∈ st.labels.map Prod.fst, k ∈ st.symset)
    (hc : ∀ k ∈ st.constants.map Prod.fst, k ∈ st.symset) :
    ((parseStmt st s).labels.map Prod.fst ++
        (parseStmt st s).constants.map Prod.fst).Nodup ∧
      (∀ k ∈ (parseStmt st s).labels.map Prod.fst, k ∈ (parseStmt st s).symset) ∧
      (∀ k ∈ (parseStmt st s).constants.map Prod.fst, k ∈ (parseStmt st s).symset) := by
  unfold parseStmt
  by_cases herr : st.error.isSome
  · simp only [herr, if_true]
    exact ⟨hnd, hl, hc⟩
  · simp only [herr, if_false]
    cases s with
    | labelDecl n =>
        by_cases hcont : st.symset.contains n
        · simp only [hcont, if_true]
          exact ⟨hnd, hl, hc⟩
        · have hn : n ∉ st.symset := by simpa using hcont
          have hnl : n ∉ st.labels.map Prod.fst := fun hmem => hn (hl _ hmem)
          have hnc : n ∉ st.constants.map Prod.fst := fun hmem => hn (hc _ hmem)
          have hlookup : st.labels.lookup n = none :=
            (lookup_none_iff_not_mem_keys _ _).mpr hnl
          simp only [hcont, if_false, mapInsert_keys, hlookup, Option.isSome_none,
                     Bool.false_eq_true]
          refine ⟨?_, ?_, ?_⟩
          · simpa using nodup_append_snoc_left _ _ n hnd hnl hnc
          · intro k hk
            rcases List.mem_append.mp hk with hk1 | hk2
            · exact List.mem_append.mpr (Or.inl (hl _ hk1))
            · rw [List.mem_singleton] at hk2
              exact List.mem_append.mpr (Or.inr (by simp [hk2]))
          · intro k hk
            exact List.mem_append.mpr (Or.inl (hc _ hk))
    | defvar n v =>
        by_cases hcont : st.symset.contains n
        · simp only [hcont, if_true]
          exact ⟨hnd, hl, hc⟩
        · have hn : n ∉ st.symset := by simpa using hcont
          have hnl : n ∉ st.labels.map Prod.fst := fun hmem => hn (hl _ hmem)
          have hnc : n ∉ st.constants.map Prod.fst := fun hmem => hn (hc _ hmem)
          have hlookup : st.constants.lookup n = none :=
            (lookup_none_iff_not_mem_keys _ _).mpr hnc
          simp only [hcont, if_false, mapInsert_keys, hlookup, Option.isSome_none,
                     Bool.false_eq_true]
          refine ⟨?_, ?_, ?_⟩
          · simpa using nodup_append_snoc_right _ _ n hnd hnl hnc
          · intro k hk
            exact List.mem_append.mpr (Or.inl (hl _ hk))
          · intro k hk
            rcases List.mem_append.mp hk with hk1 | hk2
            · exact List.mem_append.mpr (Or.inl (hc _ hk1))
            · rw [List.mem_singleton] at hk2
              exact List.mem_append.mpr (Or.inr (by simp [hk2]))
    | instr mi ext ops =>
        exact ⟨hnd, hl, hc⟩

theorem foldl_parseStmt_inv (p : List GekkoStmt) (st : GenState)
    (hnd : (st.labels.map Prod.fst ++ st.constants.map Prod.fst).Nodup)
    (hl : ∀ k ∈ st.labels.map Prod.fst, k ∈ st.symset)
    (hc : ∀ k ∈ st.constants.map Prod.fst, k ∈ st.symset) :
    ((p.foldl parseStmt st).labels.map Prod.fst ++
        (p.foldl parseStmt st).constants.map Prod.fst).Nodup ∧
      (∀ k ∈ (p.foldl parseStmt st).labels.map Prod.fst, k ∈ (p.foldl parseStmt st).symset) ∧
      (∀ k ∈ (p.foldl parseStmt st).constants.map Prod.fst,
        k ∈ (p.foldl parseStmt st).symset) := by
  induction p generalizing st with
  | nil => exact ⟨hnd, hl, hc⟩
  | cons s t ih =>
      obtain ⟨hnd', hl', hc'⟩ := parseStmt_preserves_inv st s hnd hl hc
      exact ih (parseStmt st s) hnd' hl' hc'

/-- C7: across any parsed statement sequence each identifier is defined
    at most once over the label table and the constant table together,
    and any redeclaration of a name already in the defined-names set is
    rejected with the duplicate-definition error, leaving every other
    state component (in particular both tables) unchanged. -/
theorem c7_duplicate_definitions :
    (∀ (p : List GekkoStmt) (base : Nat),
        ((parseProgram p base).labels.map Prod.fst ++
          (parseProgram p base).constants.map Prod.fst).Nodup) ∧
      (∀ (st : GenState) (n : String) (v : Nat),
        st.error = none → st.symset.contains n = true →
          parseStmt st (.labelDecl n) = { st with error := some (dupErr n) } ∧
          parseStmt st (.defvar n v) = { st with error := some (dupErr n) }) := by
  constructor
  · intro p base
    exact (foldl_parseStmt_inv p (initState base) (by simp [initState]) (by simp [initState])
      (by simp [initState])).1
  · intro st n v herr hcont
    have hmem : n ∈ st.symset := by simpa using hcont
    constructor
    · unfold parseStmt
      simp [herr, hmem]
    · unfold parseStmt
      simp [herr, hmem]

/-- Witness for c7_duplicate_definitions: the program declaring label x
    then constant x, and a state in which x is already defined. -/
theorem c7_duplicate_definitions_witness :
    ((parseProgram [GekkoStmt.labelDecl "x", GekkoStmt.defvar "x" 1] 0).labels.map
          Prod.fst ++
        (parseProgram [GekkoStmt.labelDecl "x", GekkoStmt.defvar "x" 1] 0).constants.map
          Prod.fst).Nodup ∧
      ((GenState.mk [⟨[], 0⟩] [("x", 4)] [] ["x"] [] [] none).error = none ∧
        (GenState.mk [⟨[], 0⟩] [("x", 4)] [] ["x"] [] [] none).symset.contains "x" = true) ∧
      parseStmt (GenState.mk [⟨[], 0⟩] [("x", 4)] [] ["x"] [] [] none)
          (.labelDecl "x") =
        { GenState.mk [⟨[], 0⟩] [("x", 4)] [] ["x"] [] [] none with
            error := some (dupErr "x") } ∧
      parseStmt (GenState.mk [⟨[], 0⟩] [("x", 4)] [] ["x"] [] [] none) (.defvar "x" 1) =
        { GenState.mk [⟨[], 0⟩] [("x", 4)] [] ["x"] [] [] none with
            error := some (dupErr "x") } :=
  ⟨c7_duplicate_definitions.1 [GekkoStmt.labelDecl "x", GekkoStmt.defvar "x" 1] 0,
   ⟨rfl, by decide⟩,
   (c7_duplicate_definitions.2 (GenState.mk [⟨[], 0⟩] [("x", 4)] [] ["x"] [] [] none)
       "x" 1 rfl (by decide)).1,
   (c7_duplicate_definitions.2 (GenState.mk [⟨[], 0⟩] [("x", 4)] [] ["x"] [] [] none)
       "x" 1 rfl (by decide)).2⟩

/-! ### C8: the fixup phase -/

theorem evalFixup_no_undef (labels constants : List (String × Nat)) (f : Fixup)
    (h : hasUndefinedSym labels constants f = false) (e : Option AssemblerError) :
    (evalFixup labels constants f e).2 = e := by
  induction f generalizing e with
  | lit v => rfl
  | binOp op lhs rhs ihl ihr =>
      rw [hasUndefinedSym, Bool.or_eq_false_iff] at h
      simp only [evalFixup]
      rw [ihr h.2, ihl h.1]
  | unOp op sub ih =>
      rw [hasUndefinedSym] at h
      simp only [evalFixup]
      rw [ih h]
  | absConv ia sub ih =>
      rw [hasUndefinedSym] at h
      simp only [evalFixup]
      rw [ih h]
  | symRes sym absolute src err =>
      simp only [evalFixup]
      cases hl : labels.lookup sym with
      | some v => simp
      | none =>
          cases hc : constants.lookup sym with
          | some v => simp
          | none =>
              rw [hasUndefinedSym, hl, hc] at h
              simp at h

theorem evalFixup_undef (labels constants : List (String × Nat)) (f : Fixup)
    (h : hasUndefinedSym labels constants f = true) (e : Option AssemblerError) :
    ∃ er ∈ savedErrs labels constants f, (evalFixup labels constants f e).2 = some er := by
  induction f generalizing e with
  | lit v => rw [hasUndefinedSym] at h; exact absurd h (by simp)
  | binOp op lhs rhs ihl ihr =>
      rw [hasUndefinedSym, Bool.or_eq_true] at h
      by_cases hr : hasUndefinedSym labels constants rhs = true
      · obtain ⟨er, hmem, heq⟩ := ihr hr ((evalFixup labels constants lhs e).2)
        refine ⟨er, ?_, ?_⟩
        · rw [savedErrs]
          exact List.mem_append.mpr (Or.inr hmem)
        · simp only [evalFixup]
          rw [heq]
      · have hl' : hasUndefinedSym labels constants lhs = true := by
          rcases h with h | h
          · exact h
          · exact absurd h hr
        obtain ⟨er, hmem, heq⟩ := ihl hl' e
        have hr2 := evalFixup_no_undef labels constants rhs
          (Bool.not_eq_true _ ▸ hr) ((evalFixup labels constants lhs e).2)
        refine ⟨er, ?_, ?_⟩
        · rw [savedErrs]
          exact List.mem_append.mpr (Or.inl hmem)
        · simp only [evalFixup]
          rw [hr2, heq]
  | unOp op sub ih =>
      rw [hasUndefinedSym] at h
      obtain ⟨er, hmem, heq⟩ := ih h e
      exact ⟨er, by rw [savedErrs]; exact hmem, by simp only [evalFixup]; rw [heq]⟩
  | absConv ia sub ih =>
      rw [hasUndefinedSym] at h
      obtain ⟨er, hmem, heq⟩ := ih h e
      exact ⟨er, by rw [savedErrs]; exact hmem, by simp only [evalFixup]; rw [heq]⟩
  | symRes sym absolute src err =>
      cases hl : labels.lookup sym with
      | some v => rw [hasUndefinedSym, hl] at h; simp at h
      | none =>
          cases hc : constants.lookup sym with
          | some v => rw [hasUndefinedSym, hl, hc] at h; simp at h
          | none =>
              refine ⟨err, ?_, ?_⟩
              · rw [savedErrs, hl, hc]
                simp
              · simp only [evalFixup]
                rw [hl, hc]

theorem runFixups_all_defined (labels constants : List (String × Nat)) (fs : List Fixup)
    (h : ∀ f ∈ fs, hasUndefinedSym labels constants f = false) :
    runFixups labels constants fs none =
      (fs.map (fun f => (evalFixup labels constants f none).1), none) := by
  induction fs with
  | nil => rfl
  | cons f t ih =>
      have hf := evalFixup_no_undef labels constants f (h f (by simp)) none
      simp only [runFixups, hf, List.map_cons]
      rw [ih (fun g hg => h g (by simp [hg]))]

theorem runFixups_first_undef (labels constants : List (String × Nat))
    (pre post : List Fixup) (f : Fixup)
    (hpre : ∀ g ∈ pre, hasUndefinedSym labels constants g = false)
    (hf : hasUndefinedSym labels constants f = true) :
    ∃ er ∈ savedErrs labels constants f,
      runFixups labels constants (pre ++ f :: post) none =
        (pre.map (fun g => (evalFixup labels constants g none).1) ++
          (evalFixup labels constants f none).1 :: post.map (fun _ => (0 : Nat)),
         some er) := by
  induction pre with
  | nil =>
      obtain ⟨er, hmem, heq⟩ := evalFixup_undef labels constants f hf none
      exact ⟨er, hmem, by simp [runFixups, heq]⟩
  | cons g t ih =>
      have hg := evalFixup_no_undef labels constants g (hpre g (by simp)) none
      obtain ⟨er, hmem, heq⟩ := ih (fun x hx => hpre x (by simp [hx]))
      refine ⟨er, hmem, ?_⟩
      simp only [List.cons_append, runFixups, hg, List.map_cons, List.append_eq]
      rw [heq]

/-- C8: during the fixup phase, when every symbol referenced by the
    fixups is defined no error is produced; when some fixup references
    an undefined symbol, the phase stops at the first such fixup with
    one of the errors saved for its undefined references (each carrying
    the operand source span captured by AddSymbolResolve) and the pool
    slots of all later fixups keep their placeholder zero. -/
theorem c8_fixup_phase (labels constants : List (String × Nat)) :
    (∀ fs : List Fixup, (∀ f ∈ fs, hasUndefinedSym labels constants f = false) →
        (runFixups labels constants fs none).2 = none) ∧
      (∀ (pre post : List Fixup) (f : Fixup),
        (∀ g ∈ pre, hasUndefinedSym labels constants g = false) →
        hasUndefinedSym labels constants f = true →
          ∃ er ∈ savedErrs labels constants f,
            runFixups labels constants (pre ++ f :: post) none =
              (pre.map (fun g => (evalFixup labels constants g none).1) ++
                (evalFixup labels constants f none).1 :: post.map (fun _ => (0 : Nat)),
               some er)) :=
  ⟨fun fs h => by rw [runFixups_all_defined labels constants fs h],
   fun pre post f hpre hf => runFixups_first_undef labels constants pre post f hpre hf⟩

/-- Witness for c8_fixup_phase: label table l = 4; the defined fixup
    list [lit 5] runs clean, and with an undefined symbol u between two
    literals the phase stops at u and the last slot stays zero. -/
theorem c8_fixup_phase_witness :
    (runFixups [("l", 4)] [] [Fixup.lit 5] none).2 = none ∧
      ∃ er ∈ savedErrs [("l", 4)] []
          (Fixup.symRes "u" false 0 (unresolvedErr "u")),
        runFixups [("l", 4)] []
            ([Fixup.lit 5] ++ Fixup.symRes "u" false 0 (unresolvedErr "u") :: [Fixup.lit 7])
            none =
          ([Fixup.lit 5].map
              (fun g => (evalFixup [("l", 4)] [] g none).1) ++
            (evalFixup [("l", 4)] []
                (Fixup.symRes "u" false 0 (unresolvedErr "u")) none).1 ::
              [Fixup.lit 7].map (fun _ => (0 : Nat)),
           some er) :=
  ⟨(c8_fixup_phase [("l", 4)] []).1 [Fixup.lit 5] (by decide),
   (c8_fixup_phase [("l", 4)] []).2 [Fixup.lit 5] [Fixup.lit 7]
     (Fixup.symRes "u" false 0 (unresolvedErr "u")) (by decide) (by decide)⟩

/-! ### C4: fixup ordering and forward references -/

theorem parseStmt_fixups_stable (st : GenState) (s : GekkoStmt) (j : Nat) (f : Fixup)
    (h : st.operand_fixups[j]? = some f) :
    (parseStmt st s).operand_fixups[j]? = some f := by
  have hj : j < st.operand_fixups.length := by
    by_contra hge
    rw [List.getElem?_eq_none (Nat.le_of_not_lt hge)] at h
    exact Option.noConfusion h
  unfold parseStmt
  split
  · exact h
  · cases s with
    | labelDecl n => by_cases hm : n ∈ st.symset <;> simp [hm, h]
    | defvar n v => by_cases hm : n ∈ st.symset <;> simp [hm, h]
    | instr mi ext ops =>
        show (st.operand_fixups ++ _)[j]? = some f
        rw [List.getElem?_append]
        simp [hj, h]

theorem parseStmt_pool_stable (st : GenState) (s : GekkoStmt) (j : Nat) (v : Nat)
    (h : st.operand_pool[j]? = some v) :
    (parseStmt st s).operand_pool[j]? = some v := by
  have hj : j < st.operand_pool.length := by
    by_contra hge
    rw [List.getElem?_eq_none (Nat.le_of_not_lt hge)] at h
    exact Option.noConfusion h
  unfold parseStmt
  split
  · exact h
  · cases s with
    | labelDecl n => by_cases hm : n ∈ st.symset <;> simp [hm, h]
    | defvar n v => by_cases hm : n ∈ st.symset <;> simp [hm, h]
    | instr mi ext ops =>
        show (st.operand_pool ++ _)[j]? = some v
        rw [List.getElem?_append]
        simp [hj, h]

theorem foldl_fixups_stable (q : List GekkoStmt) (st : GenState) (j : Nat) (f : Fixup)
    (h : st.operand_fixups[j]? = some f) :
    ((q.foldl parseStmt st).operand_fixups)[j]? = some f := by
  induction q generalizing st with
  | nil => exact h
  | cons s t ih => exact ih (parseStmt st s) (parseStmt_fixups_stable st s j f h)

theorem foldl_pool_stable (q : List GekkoStmt) (st : GenState) (j : Nat) (v : Nat)
    (h : st.operand_pool[j]? = some v) :
    ((q.foldl parseStmt st).operand_pool)[j]? = some v := by
  induction q generalizing st with
  | nil => exact h
  | cons s t ih => exact ih (parseStmt st s) (parseStmt_pool_stable st s j v h)

theorem parseStmt_error_stable (st : GenState) (s : GekkoStmt)
    (h : st.error.isSome = true) : parseStmt st s = st := by
  unfold parseStmt
  simp [h]

theorem foldl_error_stable (q : List GekkoStmt) (st : GenState)
    (h : st.error.isSome = true) : q.foldl parseStmt st = st := by
  induction q with
  | nil => rfl
  | cons s t ih => rw [List.foldl_cons, parseStmt_error_stable st s h, ih]

theorem parseStmt_len_eq (st : GenState) (s : GekkoStmt)
    (h : st.operand_fixups.length = st.operand_pool.length) :
    (parseStmt st s).operand_fixups.length = (parseStmt st s).operand_pool.length := by
  unfold parseStmt
  split
  · exact h
  · cases s with
    | labelDecl n => by_cases hm : n ∈ st.symset <;> simp [hm, h]
    | defvar n v => by_cases hm : n ∈ st.symset <;> simp [hm, h]
    | instr mi ext ops => simp [h]

theorem foldl_len_eq (q : List GekkoStmt) (st : GenState)
    (h : st.operand_fixups.length = st.operand_pool.length) :
    (q.foldl parseStmt st).operand_fixups.length =
      (q.foldl parseStmt st).operand_pool.length := by
  induction q generalizing st with
  | nil => exact h
  | cons s t ih => exact ih (parseStmt st s) (parseStmt_len_eq st s h)

theorem runFixups_none_getElem (labels constants : List (String × Nat)) (fs : List Fixup)
    (h : (runFixups labels constants fs none).2 = none) (j : Nat) :
    (runFixups labels constants fs none).1[j]? =
      (fs[j]?).map (fun f => (evalFixup labels constants f none).1) := by
  induction fs generalizing j with
  | nil => simp [runFixups]
  | cons f t ih =>
      cases hr : (evalFixup labels constants f none).2 with
      | some e =>
          exact Option.noConfusion (by simpa only [runFixups, hr] using h)
      | none =>
          simp only [runFixups, hr] at h ⊢
          cases j with
          | zero => simp
          | succ n => simpa using ih h n

/-- C4 (amended): for any program whose parse phase and fixup phase both
    finish without error, the operand of an instruction at position i
    that references an identifier L not yet defined there stays at its
    placeholder 0 through the whole parse phase, and the fixup phase,
    which runs only after parsing has completed, resolves it against the
    completed label table - to the final address of L minus the address
    of the referencing instruction. -/
theorem c4_forward_reference (p : List GekkoStmt) (base : Nat) (i mi : Nat) (ext : Bool)
    (L : String) (A : Nat)
    (hstmt : p[i]? = some (.instr mi ext [.ident L]))
    (hfwd : (parseProgram (p.take i) base).symset.contains L = false)
    (hok : (runPipeline p base).error = none)
    (hA : (runPipeline p base).labels.lookup L = some A) :
    (parseProgram p
          base).operand_pool[(parseProgram (p.take i) base).operand_pool.length]? =
        some 0 ∧
      (runPipeline p
            base).operand_pool[(parseProgram (p.take i) base).operand_pool.length]? =
        some (sub32 A (curAddr (parseProgram (p.take i) base))) := by
  have hlen : i < p.length := by
    by_contra hge
    rw [List.getElem?_eq_none (by omega : p.length ≤ i)] at hstmt
    exact Option.noConfusion hstmt
  have hget : p[i] = GekkoStmt.instr mi ext [.ident L] := by
    have hx := List.getElem?_eq_getElem hlen
    rw [hx] at hstmt
    exact Option.some.inj hstmt
  have hdecomp : parseProgram p base =
      (p.drop i).foldl parseStmt (parseProgram (p.take i) base) := by
    unfold parseProgram
    conv_lhs => rw [← List.take_append_drop i p]
    rw [List.foldl_append]
  have hdrop : p.drop i = GekkoStmt.instr mi ext [.ident L] :: p.drop (i + 1) := by
    rw [List.drop_eq_getElem_cons hlen, hget]
  have hparse_err : (parseProgram p base).error = none := by
    cases hpe : (parseProgram p base).error with
    | none => rfl
    | some e =>
        unfold runPipeline at hok
        simp only [hpe] at hok
        exact Option.noConfusion hok
  have hpre_err : (parseProgram (p.take i) base).error = none := by
    cases hpe : (parseProgram (p.take i) base).error with
    | none => rfl
    | some e =>
        have hfold := foldl_error_stable (p.drop i) (parseProgram (p.take i) base)
          (by simp [hpe])
        rw [hdecomp, hfold, hpe] at hparse_err
        exact Option.noConfusion hparse_err
  have hinv := foldl_parseStmt_inv (p.take i) (initState base) (by simp [initState])
    (by simp [initState]) (by simp [initState])
  have hLn : L ∉ (parseProgram (p.take i) base).symset := by simpa using hfwd
  have hLl : (parseProgram (p.take i) base).labels.lookup L = none := by
    apply (lookup_none_iff_not_mem_keys _ _).mpr
    intro hmem
    exact hLn (hinv.2.1 _ hmem)
  have hLc : (parseProgram (p.take i) base).constants.lookup L = none := by
    apply (lookup_none_iff_not_mem_keys _ _).mpr
    intro hmem
    exact hLn (hinv.2.2 _ hmem)
  have hmid_fix :
      (parseStmt (parseProgram (p.take i) base)
          (.instr mi ext [.ident L])).operand_fixups =
        (parseProgram (p.take i) base).operand_fixups ++
          [Fixup.symRes L false (curAddr (parseProgram (p.take i) base))
            (unresolvedErr L)] := by
    unfold parseStmt
    simp [hpre_err, buildFixup, hLl, hLc]
  have hmid_pool :
      (parseStmt (parseProgram (p.take i) base)
          (.instr mi ext [.ident L])).operand_pool =
        (parseProgram (p.take i) base).operand_pool ++ [0] := by
    unfold parseStmt
    simp [hpre_err]
  have hlen_eq : (parseProgram (p.take i) base).operand_fixups.length =
      (parseProgram (p.take i) base).operand_pool.length :=
    foldl_len_eq (p.take i) (initState base) rfl
  have hj_fix :
      (parseStmt (parseProgram (p.take i) base)
            (.instr mi ext
              [.ident L])).operand_fixups[(parseProgram (p.take i)
            base).operand_pool.length]? =
        some (Fixup.symRes L false (curAddr (parseProgram (p.take i) base))
          (unresolvedErr L)) := by
    rw [hmid_fix, ← hlen_eq]
    exact List.getElem?_concat_length _ _
  have hj_pool :
      (parseStmt (parseProgram (p.take i) base)
            (.instr mi ext
              [.ident L])).operand_pool[(parseProgram (p.take i)
            base).operand_pool.length]? = some 0 := by
    rw [hmid_pool]
    exact List.getElem?_concat_length _ _
  have hfull_fix :
      (parseProgram p
            base).operand_fixups[(parseProgram (p.take i) base).operand_pool.length]? =
        some (Fixup.symRes L false (curAddr (parseProgram (p.take i) base))
          (unresolvedErr L)) := by
    rw [hdecomp, hdrop, List.foldl_cons]
    exact foldl_fixups_stable _ _ _ _ hj_fix
  have hfull_pool :
      (parseProgram p
            base).operand_pool[(parseProgram (p.take i) base).operand_pool.length]? =
        some 0 := by
    rw [hdecomp, hdrop, List.foldl_cons]
    exact foldl_pool_stable _ _ _ _ hj_pool
  refine ⟨hfull_pool, ?_⟩
  have hrp : runPipeline p base =
      { parseProgram p base with
        operand_pool := (runFixups (parseProgram p base).labels
          (parseProgram p base).constants (parseProgram p base).operand_fixups none).1,
        error := (runFixups (parseProgram p base).labels
          (parseProgram p base).constants (parseProgram p base).operand_fixups none).2 } := by
    unfold runPipeline
    simp only [hparse_err]
  have hrf_err : (runFixups (parseProgram p base).labels (parseProgram p base).constants
      (parseProgram p base).operand_fixups none).2 = none := by
    rw [hrp] at hok
    simpa using hok
  have hAp : (parseProgram p base).labels.lookup L = some A := by
    rw [hrp] at hA
    simpa using hA
  rw [hrp]
  show (runFixups (parseProgram p base).labels (parseProgram p base).constants
      (parseProgram p base).operand_fixups
      none).1[(parseProgram (p.take i) base).operand_pool.length]? =
    some (sub32 A (curAddr (parseProgram (p.take i) base)))
  rw [runFixups_none_getElem _ _ _ hrf_err _, hfull_fix]
  simp [evalFixup, hAp]

/-- C4 counterexample to the claim as stated: in the program where an
    instruction at 0x100 references the label L declared right after it
    (so L = 0x104 = 260), the resolved operand value is 4 = L minus the
    instruction address, not the label address 260 itself. -/
theorem c4_forward_reference_counterexample :
    (runPipeline [GekkoStmt.instr 0 false [GekkoExpr.ident "L"],
          GekkoStmt.labelDecl "L"] 256).operand_pool = [4] ∧
      (runPipeline [GekkoStmt.instr 0 false [GekkoExpr.ident "L"],
            GekkoStmt.labelDecl "L"] 256).labels.lookup "L" = some 260 ∧
      (runPipeline [GekkoStmt.instr 0 false [GekkoExpr.ident "L"],
            GekkoStmt.labelDecl "L"] 256).error = none ∧
      (4 : Nat) ≠ 260 := by
  refine ⟨by decide, by decide, by decide, by decide⟩

/-- Witness for c4_forward_reference on the two-statement program with a
    forward reference to L from the instruction at address 256. -/
theorem c4_forward_reference_witness :
    (parseProgram [GekkoStmt.instr 0 false [GekkoExpr.ident "L"],
            GekkoStmt.labelDecl "L"]
          256).operand_pool[(parseProgram
            ([GekkoStmt.instr 0 false [GekkoExpr.ident "L"],
                GekkoStmt.labelDecl "L"].take 0) 256).operand_pool.length]? =
        some 0 ∧
      (runPipeline [GekkoStmt.instr 0 false [GekkoExpr.ident "L"],
            GekkoStmt.labelDecl "L"]
          256).operand_pool[(parseProgram
            ([GekkoStmt.instr 0 false [GekkoExpr.ident "L"],
                GekkoStmt.labelDecl "L"].take 0) 256).operand_pool.length]? =
        some (sub32 260
          (curAddr (parseProgram
            ([GekkoStmt.instr 0 false [GekkoExpr.ident "L"],
                GekkoStmt.labelDecl "L"].take 0) 256))) :=
  c4_forward_reference
    [GekkoStmt.instr 0 false [GekkoExpr.ident "L"], GekkoStmt.labelDecl "L"] 256 0 0 false
    "L" 260 (by decide) (by decide) (by decide) (by decide)

/-! ### C5: the # character and comments -/

/-- C5 (code-bug evidence): the lexer has no comment handling at all. A
    # character reaches single_char_token, which classifies it as an
    invalid token with reason Unrecognized character, so it surfaces in
    the token stream: the statement nop followed by a # comment lexes to
    identifier-invalid-identifier-EOF instead of lexing exactly like the
    bare statement nop, and the parser promotes the invalid token to an
    error. -/
theorem c5_comment_code_bug :
    (lexTokens 10 IdentifierMatchRule.kTypical
          ['n', 'o', 'p', ' ', '#', ' ', 'c']).map (fun t => t.token_type) =
        [.kIdentifier, .kInvalid, .kIdentifier, .kEof] ∧
      (lexTokens 10 IdentifierMatchRule.kTypical ['n', 'o', 'p']).map
          (fun t => t.token_type) = [.kIdentifier, .kEof] ∧
      lexSingle IdentifierMatchRule.kTypical ['#', ' ', 'c'] =
        (⟨.kInvalid, ['#'], "Unrecognized character", (0, 1)⟩, ['c']) ∧
      single_char_token '#' = .kInvalid := by
  refine ⟨by decide, by decide, by decide, by decide⟩
